import Mathlib

/-!
Verification of the vendoring tool (pradyunsg/vendoring) against its
natural-language specification.

The Python source is shallowly embedded: text is modelled as lists of
characters (`Name`), a file as a list of lines (each line understood to be
newline-terminated, which is how every file the tool processes ends), and
the line-anchored MULTILINE regular expressions of the source are embedded
as per-line decompositions.  Fallible code returns `Except`; filesystem and
network effects of the interactive flow are modelled as explicit effect
traces.
-/

namespace Vendoring

/-- Text is modelled as a list of characters. -/
abbrev Name := List Char

/-- Python's regex class `\s` over the ASCII range: space, tab, newline,
carriage return, vertical tab and form feed. -/
def isPySpace (c : Char) : Bool :=
  c == ' ' || c == '\t' || c == '\n' || c == '\r' ||
    c == Char.ofNat 11 || c == Char.ofNat 12

/-- Strip a literal pattern from the front of a string: `some rest` when the
pattern is a prefix, `none` otherwise.  Embeds matching a literal fragment of
a regular expression. -/
def stripLit : Name → Name → Option Name
  | [], s => some s
  | _ :: _, [] => none
  | p :: ps, c :: cs => if p = c then stripLit ps cs else none

/-- Python's `in` on strings: substring test. -/
def containsSub (hay pat : Name) : Bool :=
  hay.tails.any (fun t => pat.isPrefixOf t)

/-! ## Import rewriter (src/vendoring/tasks/vendor.py)

`rewrite_file_imports` applies, for each vendored library name and under a
non-empty namespace, four line-anchored MULTILINE regular expressions in
order; detecting a dotted import without an alias raises `VendoringError`.
Each regex is anchored at start of line and is embedded per line. -/

/-- Error raised for an unrewritable dotted import.  Carries the offending
file and the line number exactly as the source computes it:
`text.count of newline up to match.start, plus one`. -/
structure RewriteError where
  file : Name
  lineNumber : Nat
  deriving DecidableEq, Repr

/-- Embeds the substitution of `^(\s*)import {lib}(\s|$)` with
`\1from {namespace} import {lib}\2` on one line (the pattern never spans
lines; a `\s` matching the terminating newline reproduces it). -/
def rewritePlainImport (ns lib : Name) (line : Name) : Name :=
  let ws := line.takeWhile isPySpace
  let rest := line.dropWhile isPySpace
  match stripLit ("import ".data ++ lib) rest with
  | none => line
  | some [] => ws ++ "from ".data ++ ns ++ " import ".data ++ lib
  | some (c :: tail) =>
    if isPySpace c then ws ++ "from ".data ++ ns ++ " import ".data ++ lib ++ c :: tail
    else line

/-- Embeds the substitution of `^(\s*)import {lib}(\.\S+)(?=\s+as)` with
`\1import {namespace}.{lib}\2` on one line.  The greedy `\S+` takes the
maximal run of non-space characters; backtracking cannot help the lookahead
`\s+as`, so the lookahead holds exactly when the remainder starts with at
least one space followed by the letters `as`. -/
def rewriteAliasedImport (ns lib : Name) (line : Name) : Name :=
  let ws := line.takeWhile isPySpace
  let rest := line.dropWhile isPySpace
  match stripLit ("import ".data ++ lib ++ ['.']) rest with
  | none => line
  | some t =>
    let s := t.takeWhile (fun c => !isPySpace c)
    let r := t.dropWhile (fun c => !isPySpace c)
    if s.isEmpty then line
    else if (r.takeWhile isPySpace).isEmpty then line
    else if "as".data.isPrefixOf (r.dropWhile isPySpace) then
      ws ++ "import ".data ++ ns ++ '.' :: lib ++ '.' :: s ++ r
    else line

/-- Does `import {lib}\.\S+` appear on this line after leading whitespace?
Embeds one line's worth of the search for `^\s*(import {lib}\.\S+)`. -/
def isDottedImportLine (lib : Name) (line : Name) : Bool :=
  match stripLit ("import ".data ++ lib ++ ['.']) (line.dropWhile isPySpace) with
  | some (c :: _) => !isPySpace c
  | _ => false

/-- The line number the source reports for the first unrewritable
dotted import.  The search pattern starts with `^\s*` and `\s` also matches
newlines, so when whitespace-only lines immediately precede the offending
line the match starts at the first line of that whitespace run; the source
reports `count of newlines before match.start, plus one`, i.e. the number of
the run's first line, not necessarily of the import line itself. -/
def dottedErrorGo (lib : Name) (idx blanks : Nat) : List Name → Option Nat
  | [] => none
  | l :: rest =>
    if isDottedImportLine lib l then some (idx - blanks + 1)
    else if l.all isPySpace then dottedErrorGo lib (idx + 1) (blanks + 1) rest
    else dottedErrorGo lib (idx + 1) 0 rest

/-- Reported line number for the first dotted-import match in a file, or
`none` when no line matches. -/
def dottedErrorLine (lib : Name) (lines : List Name) : Option Nat :=
  dottedErrorGo lib 0 0 lines

/-- Embeds the substitution of `^(\s*)from {lib}(\.|\s)` with
`\1from {namespace}.{lib}\2` on one line.  With lines understood as
newline-terminated, a line ending right after the library name is rewritten
too: the `\s` alternative consumes the newline and the replacement re-emits
it. -/
def rewriteFromImport (ns lib : Name) (line : Name) : Name :=
  let ws := line.takeWhile isPySpace
  let rest := line.dropWhile isPySpace
  match stripLit ("from ".data ++ lib) rest with
  | none => line
  | some [] => ws ++ "from ".data ++ ns ++ '.' :: lib
  | some (c :: tail) =>
    if c == '.' || isPySpace c then ws ++ "from ".data ++ ns ++ '.' :: lib ++ c :: tail
    else line

/-- One iteration of the loop over vendored library names: the two `import`
substitutions, then the fatal check for an unrewritable dotted import, then
the `from` substitution. -/
def processLib (item ns lib : Name) (lines : List Name) :
    Except RewriteError (List Name) :=
  let t1 := lines.map (fun l => rewriteAliasedImport ns lib (rewritePlainImport ns lib l))
  match dottedErrorLine lib t1 with
  | some k => .error ⟨item, k⟩
  | none => .ok (t1.map (rewriteFromImport ns lib))

/-- Embeds `rewrite_file_imports`.  `item` is the file path (used only in the
error), `subst` abstracts the user-configured regex substitutions applied
first (their internals are configuration, not code under verification).
With an empty namespace no import rewriting happens.  The result is the text
that the source writes back at the very end; an error propagates before the
write. -/
def rewrite_file_imports (item ns : Name) (vendoredLibs : List Name)
    (subst : List Name → List Name) (lines : List Name) :
    Except RewriteError (List Name) :=
  let t := subst lines
  if ns.isEmpty then .ok t
  else vendoredLibs.foldlM (fun acc lib => processLib item ns lib acc) t

/-- The on-disk content of the file after `rewrite_file_imports` runs on it:
the source calls `item.write_text` only after the loop over all vendored
libraries finished without raising, so an error leaves the original
content. -/
def diskAfterRewrite (item ns : Name) (vendoredLibs : List Name)
    (subst : List Name → List Name) (lines : List Name) : List Name :=
  match rewrite_file_imports item ns vendoredLibs subst lines with
  | .ok t => t
  | .error _ => lines

/-! ## Pinned-package parser (src/vendoring/tasks/update.py)

The requirements line regex is
`^(?P<prefix>\s*)(?P<name>[A-Z][A-Z0-9\-._]*)\s*==\s*(?P<version>VERSION_PATTERN)(?P<suffix>.*)$`
compiled with VERBOSE and IGNORECASE, where VERSION_PATTERN comes from
packaging.version.  Every quantifier in the pattern is greedy and nothing
that follows a committed group can fail (each later group is optional and
the suffix accepts anything up to end of line), with two exceptions embedded
explicitly below: an epoch whose digits are not followed by `!` falls back
to being the release, and a group separator not followed by the group's
letters falls back to the group being absent.  The embedding therefore
consumes each group greedily in pattern order. -/

/-- Characters of the regex class `[-_\.]`. -/
def isSepChar (c : Char) : Bool := c == '-' || c == '_' || c == '.'

/-- Characters of `[a-z0-9]` under IGNORECASE. -/
def isLocalAlnum (c : Char) : Bool := c.isAlpha || c.isDigit

/-- Strip a lowercase literal case-insensitively (the regex is IGNORECASE),
returning the consumed original characters and the rest. -/
def ciStrip : Name → Name → Option (Name × Name)
  | [], s => some ([], s)
  | _ :: _, [] => none
  | p :: ps, c :: cs =>
    if c.toLower = p.toLower then
      match ciStrip ps cs with
      | some (m, r) => some (c :: m, r)
      | none => none
    else none

/-- First alternative of a regex alternation that matches at this position. -/
def firstCI : List Name → Name → Option (Name × Name)
  | [], _ => none
  | p :: ps, s =>
    match ciStrip p s with
    | some r => some r
    | none => firstCI ps s

/-- The greedy optional separator `[-_\.]?`. -/
def optSep : Name → Name × Name
  | c :: r => if isSepChar c then ([c], r) else ([], c :: r)
  | [] => ([], [])

/-- The tail `[-_\.]?([0-9]+)?` shared by the pre, post and dev groups. -/
def sepDigitsTail (s : Name) : Name × Name :=
  let (a, r1) := optSep s
  (a ++ r1.takeWhile Char.isDigit, r1.dropWhile Char.isDigit)

/-- An optional labelled group `[-_\.]?(alternation)[-_\.]?([0-9]+)?`: the
greedy separator is tried first; if the letters do not follow it the regex
backtracks to no separator; if the letters still do not match the whole
group is absent and consumes nothing. -/
def labelledGroup (alts : List Name) (s : Name) : Name × Name :=
  let withSep : Option (Name × Name) :=
    match s with
    | c :: rest =>
      if isSepChar c then
        match firstCI alts rest with
        | some (m, r) => some (c :: m, r)
        | none => none
      else none
    | [] => none
  match withSep with
  | some (m, r) =>
    let (t, r2) := sepDigitsTail r
    (m ++ t, r2)
  | none =>
    match firstCI alts s with
    | some (m, r) =>
      let (t, r2) := sepDigitsTail r
      (m ++ t, r2)
    | none => ([], s)

/-- Alternation order of the pre-release letters in VERSION_PATTERN. -/
def preAlts : List Name := ["alpha".data, "a".data, "b".data, "beta".data,
  "c".data, "preview".data, "pre".data, "rc".data]

/-- Alternation order of the post-release letters in VERSION_PATTERN. -/
def postAlts : List Name := ["post".data, "rev".data, "r".data]

/-- The post group `(?:-(?P<post_n1>[0-9]+))|(?:[-_\.]?(post|rev|r)[-_\.]?([0-9]+)?)`,
optional: the bare `-digits` alternative is preferred, falling back to the
labelled alternative, falling back to absence. -/
def matchPost (s : Name) : Name × Name :=
  match s with
  | '-' :: rest =>
    if (rest.takeWhile Char.isDigit).isEmpty then labelledGroup postAlts ('-' :: rest)
    else ('-' :: rest.takeWhile Char.isDigit, rest.dropWhile Char.isDigit)
  | t => labelledGroup postAlts t

/-- The greedy `(?:\.[0-9]+)*` tail of the release segment.  Structural
recursion on a fuel counter so that the kernel can evaluate it; every
iteration consumes at least two characters, so fuel equal to the input
length (as supplied by `relTail`) never runs out. -/
def relTailF : Nat → Name → Name × Name
  | 0, s => ([], s)
  | fuel + 1, s =>
    match s with
    | '.' :: rest =>
      let d := rest.takeWhile Char.isDigit
      if d.isEmpty then ([], '.' :: rest)
      else
        let (m, r) := relTailF fuel (rest.dropWhile Char.isDigit)
        ('.' :: (d ++ m), r)
    | t => ([], t)

/-- The greedy `(?:\.[0-9]+)*` tail of the release segment. -/
def relTail (s : Name) : Name × Name := relTailF s.length s

/-- The release segment `[0-9]+(?:\.[0-9]+)*`. -/
def matchRelease (s : Name) : Option (Name × Name) :=
  let d := s.takeWhile Char.isDigit
  if d.isEmpty then none
  else
    let (m, r) := relTail (s.dropWhile Char.isDigit)
    some (d ++ m, r)

/-- The pre, post and dev groups after the release segment; all optional, so
this never fails. -/
def matchCoreTail (s : Name) : Name × Name :=
  let (p1, r1) := labelledGroup preAlts s
  let (p2, r2) := matchPost r1
  let (p3, r3) := labelledGroup ["dev".data] r2
  (p1 ++ (p2 ++ p3), r3)

/-- The epoch `(?:([0-9]+)!)?`: greedy digits must be followed by `!`, else
the group is absent (and the digits are left for the release). -/
def matchEpoch (s : Name) : Option (Name × Name) :=
  let d := s.takeWhile Char.isDigit
  if d.isEmpty then none
  else
    match s.dropWhile Char.isDigit with
    | '!' :: r => some (d ++ ['!'], r)
    | _ => none

/-- The core without an epoch: release then the optional tail groups. -/
def matchCoreNoEpoch (s : Name) : Option (Name × Name) :=
  match matchRelease s with
  | some (m, r) =>
    let (t, r2) := matchCoreTail r
    some (m ++ t, r2)
  | none => none

/-- The core `(?:(epoch!)?release pre? post? dev?)`: when the epoch matched
but no release follows it, the regex backtracks to an absent epoch. -/
def matchCore (s : Name) : Option (Name × Name) :=
  match matchEpoch s with
  | some (e, r) =>
    match matchRelease r with
    | some (m, r2) =>
      let (t, r3) := matchCoreTail r2
      some (e ++ (m ++ t), r3)
    | none => matchCoreNoEpoch s
  | none => matchCoreNoEpoch s

/-- The greedy `(?:[-_\.][a-z0-9]+)*` tail of the local segment, on fuel as
in `relTailF`. -/
def localTailF : Nat → Name → Name × Name
  | 0, s => ([], s)
  | fuel + 1, s =>
    match s with
    | c :: rest =>
      if isSepChar c then
        let a := rest.takeWhile isLocalAlnum
        if a.isEmpty then ([], c :: rest)
        else
          let (m, r) := localTailF fuel (rest.dropWhile isLocalAlnum)
          (c :: (a ++ m), r)
      else ([], c :: rest)
    | [] => ([], [])

/-- The greedy `(?:[-_\.][a-z0-9]+)*` tail of the local segment. -/
def localTail (s : Name) : Name × Name := localTailF s.length s

/-- The optional local segment `(?:\+(?P<local>[a-z0-9]+(?:[-_\.][a-z0-9]+)*))?`:
a `+` not followed by an alphanumeric run leaves the group absent. -/
def matchLocal : Name → Name × Name
  | '+' :: rest =>
    let a := rest.takeWhile isLocalAlnum
    if a.isEmpty then ([], '+' :: rest)
    else
      let (m, r) := localTail (rest.dropWhile isLocalAlnum)
      ('+' :: (a ++ m), r)
  | s => ([], s)

/-- packaging's VERSION_PATTERN `v?(?:core)(?:\+local)?` at the start of a
string: the consumed version text and the rest, or `none` when no version
starts here.  The optional `v` is preferred; if the core fails after it the
regex retries from the same position without consuming it. -/
def matchVersion (s : Name) : Option (Name × Name) :=
  let core : Option (Name × Name) :=
    match s with
    | c :: rest =>
      if c = 'v' ∨ c = 'V' then
        match matchCore rest with
        | some (m, r) => some (c :: m, r)
        | none => matchCore (c :: rest)
      else matchCore (c :: rest)
    | [] => none
  match core with
  | some (m, r) =>
    let (l, r2) := matchLocal r
    some (m ++ l, r2)
  | none => none

/-- Characters of the name class `[A-Z0-9\-._]` under IGNORECASE. -/
def isNameChar (c : Char) : Bool :=
  c.isAlpha || c.isDigit || c == '-' || c == '.' || c == '_'

/-- A parsed pinned requirement line.  The surrounding text is preserved in
`pfx` and `suffix` (the source's field `prefix` is renamed `pfx` here); note
the whitespace allowed around `==` by the pattern is captured by neither. -/
structure PinnedPackageInfo where
  name : Name
  version : Name
  pfx : Name
  suffix : Name
  deriving DecidableEq, Repr

/-- Serialization of a record: the source's `__str__`,
`f"{self.prefix}{self.name}=={self.version}{self.suffix}"`. -/
def pinnedStr (p : PinnedPackageInfo) : Name :=
  p.pfx ++ p.name ++ "==".data ++ p.version ++ p.suffix

/-- Matching one requirements line against the pinned-package pattern.
Greedy group order as in the pattern: whitespace, a name starting with a
letter, whitespace, the literal `==`, whitespace, the version, then the
suffix takes the remainder of the line (lines contain no newline). -/
def parseLine (line : Name) : Option PinnedPackageInfo :=
  let pfx := line.takeWhile isPySpace
  match line.dropWhile isPySpace with
  | [] => none
  | c :: r2 =>
    if c.isAlpha then
      let nm := r2.takeWhile isNameChar
      let r3 := r2.dropWhile isNameChar
      match r3.dropWhile isPySpace with
      | '=' :: '=' :: r5 =>
        match matchVersion (r5.dropWhile isPySpace) with
        | some (v, suf) => some ⟨c :: nm, v, pfx, suf⟩
        | none => none
      | _ => none
    else none

/-- Embeds `parse_pinned_packages` over the split lines of the requirements
file: parse every line, collecting the 1-based numbers and text of failing
lines; any failure raises with the whole batch. -/
def parse_pinned_packages (lines : List Name) :
    Except (List (Nat × Name)) (List PinnedPackageInfo) :=
  let failed := ((lines.enum.filter (fun q => (parseLine q.2).isNone)).map
    (fun q => (q.1 + 1, q.2)))
  if failed.isEmpty then .ok (lines.filterMap parseLine) else .error failed

/-! ## License extraction (src/vendoring/tasks/license.py)

Paths are modelled as lists of segments (`FsPath`); the filesystem is
abstracted by a predicate `isDir` telling which paths are existing
directories; archive members are their name strings; the HTTP download and
the byte copy out of the archive are pure destination computations here (the
claims are about which destinations and which members are chosen, and when
the fallback or the error fires). -/

/-- A filesystem path as a list of segments. -/
abbrev FsPath := List Name

/-- Python's str.lower over the ASCII range. -/
def lowerName (n : Name) : Name := n.map Char.toLower

/-- Python's `Path(name).name`: the part after the last slash. -/
def basename (n : Name) : Name :=
  (n.reverse.takeWhile (fun c => !(c == '/'))).reverse

/-- Python's `str.split("-")`. -/
def splitDash : Name → List Name
  | [] => [[]]
  | '-' :: rest => [] :: splitDash rest
  | c :: rest =>
    match splitDash rest with
    | [] => [[c]]
    | p :: ps => (c :: p) :: ps

/-- Python's `"-".join`. -/
def joinDash : List Name → Name
  | [] => []
  | [p] => p
  | p :: ps => p ++ '-' :: joinDash ps

/-- Does `part[0].isdigit()` hold?  (On the empty part the source would
raise IndexError; artifact filenames never produce one, and the model treats
it as not digit-initial.) -/
def startsWithDigit : Name → Bool
  | c :: _ => c.isDigit
  | [] => false

/-- Embeds `_get_library_name_from_artifact_name`: hyphen-separated parts up
to the first part that starts with a digit, joined back with hyphens. -/
def get_library_name_from_artifact_name (artifactName : Name) : Name :=
  joinDash ((splitDash artifactName).takeWhile (fun p => !startsWithDigit p))

/-- Embeds `find_licenses`: a member is a candidate iff its name contains
the substring `LICENSE` or `COPYING` (case-sensitively: Python's `in`) and
does not contain the substring `/test`, which is skipped silently with a log
line. -/
def find_licenses (members : List Name) : List Name :=
  members.filter (fun n =>
    (containsSub n "LICENSE".data || containsSub n "COPYING".data)
      && !containsSub n "/test".data)

/-- The license extractor's configuration fields; its dict fields are
association lists looked up by key. -/
structure LicenseExtractor where
  destination : FsPath
  license_directories : List (Name × Name)
  license_fallback_urls : List (Name × Name)

/-- Dict lookup. -/
def lookupA (m : List (Name × Name)) (k : Name) : Option Name :=
  (m.find? (fun q => q.1 = k)).map Prod.snd

/-- Embeds `get_license_destination`: exact-name directory, then lowercased
directory, then the configured override, then the flat
`destination/<library>.<filename>` fallback. -/
def get_license_destination (isDir : FsPath → Bool) (le : LicenseExtractor)
    (library filename : Name) : FsPath :=
  if isDir (le.destination ++ [library]) then le.destination ++ [library, filename]
  else if isDir (le.destination ++ [lowerName library]) then
    le.destination ++ [lowerName library, filename]
  else
    match lookupA le.license_directories library with
    | some d => le.destination ++ [d, filename]
    | none => le.destination ++ [library ++ '.' :: filename]

/-- Modelled from the spec's destination-resolution wording, for comparison
with the source's `get_license_destination`: (a) a directory named exactly
the library name under the destination root; (b) else a lowercase-named
directory; (c) else the explicit override; (d) else the flat
`<library>.<original-basename>` under the destination root. -/
def specLicenseDestination (isDir : FsPath → Bool) (le : LicenseExtractor)
    (library filename : Name) : FsPath :=
  if isDir (le.destination ++ [library]) then
    le.destination ++ [library, filename]
  else if isDir (le.destination ++ [lowerName library]) then
    le.destination ++ [lowerName library, filename]
  else
    match lookupA le.license_directories library with
    | some d => le.destination ++ [d, filename]
    | none => le.destination ++ [library ++ '.' :: filename]

/-- Error of `use_license_fallback`: `ValueError(f"No hardcoded license URL
for {library_name}")`. -/
inductive LicenseError where
  | noFallbackUrl (library : Name)
  deriving DecidableEq, Repr

/-- Embeds `use_license_fallback`: look the library name up in the fallback
URL map; absent is a fatal error, present downloads the URL (modelled as the
chosen (url, destination) pair, the filename being the URL's last slash
component via `rpartition`). -/
def use_license_fallback (isDir : FsPath → Bool) (le : LicenseExtractor)
    (artifactName : Name) : Except LicenseError (Name × FsPath) :=
  let library := get_library_name_from_artifact_name artifactName
  match lookupA le.license_fallback_urls library with
  | none => .error (.noFallbackUrl library)
  | some url => .ok (url, get_license_destination isDir le library (basename url))

/-- Embeds `extract_license_from_artifact`: every candidate found in the
archive is extracted (to its computed destination); only when the candidate
list is empty is the fallback download attempted, which in turn fails fatally
without a configured URL.  The result carries the extraction destinations
and the optional fallback download. -/
def extract_license_from_artifact (isDir : FsPath → Bool) (le : LicenseExtractor)
    (artifactName : Name) (members : List Name) :
    Except LicenseError (List FsPath × Option (Name × FsPath)) :=
  let licenses := find_licenses members
  if licenses.isEmpty then
    match use_license_fallback isDir le artifactName with
    | .ok dl => .ok ([], some dl)
    | .error e => .error e
  else
    .ok (licenses.map (fun m =>
      get_license_destination isDir le
        (get_library_name_from_artifact_name artifactName) (basename m)), none)

/-! ## Drop-path cleanup (src/vendoring/tasks/vendor.py,
src/vendoring/utils.py)

`remove_unnecessary_items` dispatches each configured drop pattern: a
pattern starting with a caret is a regular expression handled by
`remove_matching_regex`, else one containing a glob metacharacter is a glob,
else a literal destination-relative path.  `remove_matching_regex` walks the
destination top-down; per directory it tests every subdirectory name's
relative POSIX path against the compiled regex, removing matches from the
walk list and deleting their trees, then deletes matching files.  The
compiled regex is abstracted as a match predicate on the relative path; the
directory tree is explicit. -/

/-- Classification of one drop pattern. -/
inductive DropAction where
  | regex (pattern : Name)
  | globPat (pattern : Name)
  | literal (pattern : Name)
  deriving DecidableEq, Repr

/-- Embeds `_looks_like_glob`. -/
def looks_like_glob (pattern : Name) : Bool :=
  pattern.contains '*' || pattern.contains '?' || pattern.contains '['

/-- The dispatch in `remove_unnecessary_items`: leading caret means regex,
else glob metacharacters mean glob, else a literal path. -/
def classifyDropPattern (pattern : Name) : DropAction :=
  match pattern with
  | '^' :: _ => .regex pattern
  | _ => if looks_like_glob pattern then .globPat pattern else .literal pattern

mutual
/-- A directory tree entry: a file or a directory with children, in listing
order.  Names within one directory are distinct on a real filesystem. -/
inductive Entry where
  | file (name : Name)
  | dir (name : Name) (children : EntryList)
/-- A listing, as a mutual inductive so that recursion into subdirectories
stays structural. -/
inductive EntryList where
  | nil
  | cons (head : Entry) (tail : EntryList)
end

/-- Names of the subdirectories of a listing, in order: `os.walk`'s
`dirnames`. -/
def dirNamesOf : EntryList → List Name
  | .nil => []
  | .cons (.dir n _) rest => n :: dirNamesOf rest
  | .cons (.file _) rest => dirNamesOf rest

/-- Python's `for dirname in dirnames: if match: dirnames.remove(dirname)`
loop: the iterator's index advances after each element even when the body
removed the current element and shifted the rest left, so the element right
after a removed one is never examined.  `k` is the iterator index; the
result is the list as the loop leaves it (the surviving `dirnames`).  Fuel
is the initial length, which bounds the number of iterations. -/
def buggyRemoveLoopF (f : Name → Bool) : Nat → Nat → List Name → List Name
  | 0, _, lst => lst
  | fuel + 1, k, lst =>
    if h : k < lst.length then
      let v := lst.get ⟨k, h⟩
      if f v then buggyRemoveLoopF f fuel (k + 1) (lst.erase v)
      else buggyRemoveLoopF f fuel (k + 1) lst
    else lst

/-- The surviving `dirnames` after the removal loop. -/
def buggyRemoveLoop (f : Name → Bool) (lst : List Name) : List Name :=
  buggyRemoveLoopF f lst.length 0 lst

/-- Joining a relative POSIX path with a child name:
`(rel_dirpath / name).as_posix()`, where the walk root's relative path is
`.` and `Path(".") / n` renders as just `n`. -/
def relJoin (rel n : Name) : Name :=
  if rel = ".".data then n else rel ++ '/' :: n

/-- One level of `os.walk` inside `remove_matching_regex`, given the
surviving `dirnames` (`surv`) that the buggy removal loop left for this
level: drop the files whose relative path matches, keep exactly the
directories present in `surv` (removed directories are pruned without
descending), and recurse into each kept directory with its own removal-loop
result. -/
def keepSurvivors (f : Name → Bool) (rel : Name) (surv : List Name) :
    EntryList → EntryList
  | .nil => .nil
  | .cons (.file n) rest =>
    if f (relJoin rel n) then keepSurvivors f rel surv rest
    else .cons (.file n) (keepSurvivors f rel surv rest)
  | .cons (.dir n ch) rest =>
    if n ∈ surv then
      .cons
        (.dir n (keepSurvivors f (relJoin rel n)
          (buggyRemoveLoop (fun m => f (relJoin (relJoin rel n) m)) (dirNamesOf ch)) ch))
        (keepSurvivors f rel surv rest)
    else keepSurvivors f rel surv rest

/-- Embeds `remove_matching_regex` on a destination listing, with the
compiled pattern abstracted as the match predicate `f` on relative POSIX
paths (the walk root's relative path is `.`). -/
def remove_matching_regex (f : Name → Bool) (root : EntryList) : EntryList :=
  keepSurvivors f ".".data
    (buggyRemoveLoop (fun n => f (relJoin ".".data n)) (dirNamesOf root)) root

/-! ## Interactive update flow (src/vendoring/interactive.py)

The session state is the ordered pinned-package list (name and version, in
requirements-file order) and the optional marker (the persisted
`current-package` state file).  Effects on the outside world — the PyPI
query of `determine_latest_release`, the requirements-file write and marker
write of `InteractionState.update`, the marker delete of `cleanup`, and
`do_one_update` (vendor pass, news fragment, git commit) — are recorded in a
trace.  `determine_latest_release` is abstracted as a partial oracle (`none`
is the network failure that raises), the `packaging.Version` order as a
boolean `vle` (is the latest release less than or equal to the pinned one),
and success of `do_one_update` as a per-package boolean. -/

/-- One observable effect of the interactive flow. -/
inductive Effect where
  | network (pkg : Name)
  | writeRequirements (contents : List (Name × Name))
  | writeMarker (pkg : Name)
  | deleteMarker
  | vendorRun (pkg : Name)
  | commit (pkg : Name)
  deriving DecidableEq, Repr

/-- The named errors the interactive flow can raise. -/
inductive VendErr where
  | resumeMissing (pkg : Name)
  | resumeSkipped (pkg : Name)
  | resumeNotInOnly (pkg : Name)
  | onlyUnknown (pkg : Name)
  | networkFailure (pkg : Name)
  | vendorFailure (pkg : Name)
  deriving DecidableEq, Repr

/-- The persisted session state: requirements contents and marker file. -/
structure IState where
  packages : List (Name × Name)
  marker : Option Name
  deriving DecidableEq, Repr

/-- Outcome of one invocation: its effect trace, the state left on disk and
the error it aborted with, if any. -/
structure RunResult where
  trace : List Effect
  persisted : IState
  error : Option VendErr
  deriving DecidableEq, Repr

/-- Embeds the `resuming_from` property: no marker means no resume; a marker
naming a package absent from the requirements raises the named error before
anything else happens. -/
def resuming_from (st : IState) : Except VendErr (Option (Name × Name)) :=
  match st.marker with
  | none => .ok none
  | some p =>
    match lookupA st.packages p with
    | none => .error (.resumeMissing p)
    | some v => .ok (some (p, v))

/-- The tail of `determine_packages` after the resume-compatibility checks:
an `only` allow-list is validated against the known packages and returned;
else a `skip` deny-list filters the full ordered list; else the full ordered
list. -/
def determinePackagesRest (packages : List (Name × Name)) (skip only : List Name) :
    Except VendErr (List Name) :=
  if only ≠ [] then
    match only.find? (fun n => !(packages.any (fun q => q.1 = n))) with
    | some n => .error (.onlyUnknown n)
    | none => .ok only
  else if skip ≠ [] then .ok ((packages.map Prod.fst).filter (fun n => n ∉ skip))
  else .ok (packages.map Prod.fst)

/-- Embeds `determine_packages`: a resumed package in the skip list, or
outside a non-empty only list, is a configuration error. -/
def determine_packages (packages : List (Name × Name)) (res : Option (Name × Name))
    (skip only : List Name) : Except VendErr (List Name) :=
  match res with
  | some (p, _) =>
    if p ∈ skip then .error (.resumeSkipped p)
    else if only ≠ [] ∧ p ∉ only then .error (.resumeNotInOnly p)
    else determinePackagesRest packages skip only
  | none => determinePackagesRest packages skip only

/-- In-place version update of the ordered package dict
(`self._packages[package_name].version = version`). -/
def setVersion (n v : Name) (ps : List (Name × Name)) : List (Name × Name) :=
  ps.map (fun q => if q.1 = n then (n, v) else q)

/-- The main per-package loop of `interactive_updates`: query the latest
release (abort on network failure); skip when not newer; otherwise
`state.update` persists the bumped requirements and the marker naming this
package, and only then `do_one_update` runs the vendor pass and commits —
whose failure aborts with requirements and marker already written.  After
the loop, `state.cleanup` removes the marker file if it exists. -/
def runLoop (latest : Name → Option Name) (vle : Name → Name → Bool)
    (vendorOk : Name → Bool) :
    List Name → IState → List Effect → RunResult
  | [], st, tr =>
    match st.marker with
    | some _ => ⟨tr ++ [.deleteMarker], ⟨st.packages, none⟩, none⟩
    | none => ⟨tr, st, none⟩
  | n :: rest, st, tr =>
    match latest n with
    | none => ⟨tr ++ [.network n], st, some (.networkFailure n)⟩
    | some l =>
      if vle l ((lookupA st.packages n).getD []) then
        runLoop latest vle vendorOk rest st (tr ++ [.network n])
      else
        if vendorOk n then
          runLoop latest vle vendorOk rest ⟨setVersion n l st.packages, some n⟩
            (tr ++ [.network n, .writeRequirements (setVersion n l st.packages),
              .writeMarker n, .vendorRun n, .commit n])
        else
          ⟨tr ++ [.network n, .writeRequirements (setVersion n l st.packages),
              .writeMarker n, .vendorRun n],
            ⟨setVersion n l st.packages, some n⟩, some (.vendorFailure n)⟩

/-- Embeds `interactive_updates`: read the state, optionally clean it on
`--from-start`, resolve the resume point (raising on an unknown marker),
validate the package selection, re-run `do_one_update` for the resumed
package first, then run the per-package loop. -/
def interactive_updates (latest : Name → Option Name) (vle : Name → Name → Bool)
    (vendorOk : Name → Bool) (skip only : List Name) (fromStart : Bool)
    (init : IState) : RunResult :=
  let st0 : IState := if fromStart then ⟨init.packages, none⟩ else init
  let tr0 : List Effect :=
    if fromStart && init.marker.isSome then [.deleteMarker] else []
  match resuming_from st0 with
  | .error e => ⟨tr0, st0, some e⟩
  | .ok res =>
    match determine_packages st0.packages res skip only with
    | .error e => ⟨tr0, st0, some e⟩
    | .ok names =>
      match res with
      | some (p, _) =>
        if vendorOk p then
          runLoop latest vle vendorOk names st0 (tr0 ++ [.vendorRun p, .commit p])
        else ⟨tr0 ++ [.vendorRun p], st0, some (.vendorFailure p)⟩
      | none => runLoop latest vle vendorOk names st0 tr0

/-! ### Basic string lemmas -/

theorem stripLit_append (p : Name) : ∀ s r, stripLit p s = some r → p ++ r = s := by
  induction p with
  | nil => intro s r h; simp [stripLit] at h; simp [h]
  | cons a ps ih =>
    intro s r h
    cases s with
    | nil => simp [stripLit] at h
    | cons c cs =>
      simp only [stripLit] at h
      split at h
      · next heq => subst heq; simpa using ih cs r h
      · exact absurd h (by simp)

theorem stripLit_of_append (p r : Name) : stripLit p (p ++ r) = some r := by
  induction p with
  | nil => simp [stripLit]
  | cons a ps ih => simp [stripLit, ih]

/-- Characters of `takeWhile` all satisfy the predicate. -/
theorem all_takeWhile (p : Char → Bool) (l : Name) : (l.takeWhile p).all p = true := by
  induction l with
  | nil => simp
  | cons c cs ih =>
    by_cases h : p c
    · simp [List.takeWhile, h, ih]
    · simp [List.takeWhile, h]

/-- If a run of characters all satisfying `p` is followed by one that does
not, `takeWhile` returns exactly the run. -/
theorem takeWhile_run (p : Char → Bool) (ws : Name) (c : Char) (t : Name)
    (hws : ws.all p = true) (hc : p c = false) :
    (ws ++ c :: t).takeWhile p = ws := by
  induction ws with
  | nil => simp [List.takeWhile, hc]
  | cons a rest ih =>
    simp only [List.all_cons, Bool.and_eq_true] at hws
    simp [List.takeWhile, hws.1, ih hws.2]

/-- Companion to `takeWhile_run` for `dropWhile`. -/
theorem dropWhile_run (p : Char → Bool) (ws : Name) (c : Char) (t : Name)
    (hws : ws.all p = true) (hc : p c = false) :
    (ws ++ c :: t).dropWhile p = c :: t := by
  induction ws with
  | nil => simp [List.dropWhile, hc]
  | cons a rest ih =>
    simp only [List.all_cons, Bool.and_eq_true] at hws
    simp [List.dropWhile, hws.1, ih hws.2]

/-! ### Reconstruction lemmas: every matcher splits its input -/

theorem span_eq_self (p : Char → Bool) (l : Name) :
    l.takeWhile p ++ l.dropWhile p = l := List.takeWhile_append_dropWhile p l

theorem ciStrip_append : ∀ p s m r, ciStrip p s = some (m, r) → m ++ r = s := by
  intro p
  induction p with
  | nil =>
    intro s m r h
    simp only [ciStrip, Option.some_inj, Prod.mk.injEq] at h
    rw [← h.1, ← h.2]
    rfl
  | cons a ps ih =>
    intro s m r h
    cases s with
    | nil => simp [ciStrip] at h
    | cons c cs =>
      simp only [ciStrip] at h
      split at h
      · cases hrec : ciStrip ps cs with
        | none => rw [hrec] at h; exact absurd h (by simp)
        | some pr =>
          obtain ⟨m2, r2⟩ := pr
          rw [hrec] at h
          simp only [Option.some_inj, Prod.mk.injEq] at h
          rw [← h.1, ← h.2]
          simpa using ih cs m2 r2 hrec
      · exact absurd h (by simp)

theorem firstCI_append : ∀ alts s m r, firstCI alts s = some (m, r) → m ++ r = s := by
  intro alts
  induction alts with
  | nil => intro s m r h; simp [firstCI] at h
  | cons p ps ih =>
    intro s m r h
    simp only [firstCI] at h
    cases hp : ciStrip p s with
    | none => rw [hp] at h; exact ih s m r h
    | some pr =>
      obtain ⟨m1, r1⟩ := pr
      rw [hp] at h
      simp only [Option.some_inj, Prod.mk.injEq] at h
      rw [← h.1, ← h.2]
      exact ciStrip_append p s m1 r1 hp

theorem optSep_append : ∀ s a r, optSep s = (a, r) → a ++ r = s := by
  intro s a r h
  cases s with
  | nil =>
    simp [optSep] at h
    simp [h.1, h.2]
  | cons c cs =>
    simp only [optSep] at h
    split at h <;>
      · simp only [Prod.mk.injEq] at h
        rw [← h.1, ← h.2]
        rfl

theorem sepDigitsTail_append (s : Name) (m r : Name) (h : sepDigitsTail s = (m, r)) :
    m ++ r = s := by
  simp only [sepDigitsTail] at h
  obtain ⟨a, r1, ha⟩ : ∃ a r1, optSep s = (a, r1) := ⟨_, _, rfl⟩
  rw [ha] at h
  simp only [Prod.mk.injEq] at h
  rw [← h.1, ← h.2, List.append_assoc, span_eq_self]
  exact optSep_append s a r1 ha

theorem labelledGroup_append (alts : List Name) (s m r : Name)
    (h : labelledGroup alts s = (m, r)) : m ++ r = s := by
  simp only [labelledGroup] at h
  split at h
  · next m0 r0 hsome =>
    obtain ⟨t, r2, ht⟩ : ∃ t r2, sepDigitsTail r0 = (t, r2) := ⟨_, _, rfl⟩
    rw [ht] at h
    simp only [Prod.mk.injEq] at h
    have hm0 : m0 ++ r0 = s := by
      split at hsome
      · next c rest =>
        split at hsome
        · cases hf : firstCI alts rest with
          | none => rw [hf] at hsome; exact absurd hsome (by simp)
          | some pr =>
            obtain ⟨m1, r1⟩ := pr
            rw [hf] at hsome
            simp only [Option.some_inj, Prod.mk.injEq] at hsome
            rw [← hsome.1, ← hsome.2]
            simpa using firstCI_append alts rest m1 r1 hf
        · exact absurd hsome (by simp)
      · exact absurd hsome (by simp)
    rw [← h.1, ← h.2, List.append_assoc, sepDigitsTail_append r0 t r2 ht]
    exact hm0
  · split at h
    · next m0 r0 hf =>
      obtain ⟨t, r2, ht⟩ : ∃ t r2, sepDigitsTail r0 = (t, r2) := ⟨_, _, rfl⟩
      rw [ht] at h
      simp only [Prod.mk.injEq] at h
      rw [← h.1, ← h.2, List.append_assoc, sepDigitsTail_append r0 t r2 ht]
      exact firstCI_append alts s m0 r0 hf
    · simp only [Prod.mk.injEq] at h
      rw [← h.1, ← h.2]
      rfl

theorem matchPost_append (s m r : Name) (h : matchPost s = (m, r)) : m ++ r = s := by
  unfold matchPost at h
  split at h
  · next rest =>
    split at h
    · exact labelledGroup_append postAlts _ m r h
    · simp only [Prod.mk.injEq] at h
      rw [← h.1, ← h.2]
      simp [span_eq_self Char.isDigit rest]
  · exact labelledGroup_append postAlts _ m r h

theorem relTailF_append : ∀ fuel s m r, relTailF fuel s = (m, r) → m ++ r = s := by
  intro fuel
  induction fuel with
  | zero =>
    intro s m r h
    simp only [relTailF, Prod.mk.injEq] at h
    rw [← h.1, ← h.2]
    rfl
  | succ n ih =>
    intro s m r h
    simp only [relTailF] at h
    split at h
    · next rest =>
      split at h
      · simp only [Prod.mk.injEq] at h
        rw [← h.1, ← h.2]
        rfl
      · obtain ⟨m2, r2, hrec⟩ : ∃ m2 r2, relTailF n (rest.dropWhile Char.isDigit) = (m2, r2) :=
          ⟨_, _, rfl⟩
        rw [hrec] at h
        simp only [Prod.mk.injEq] at h
        rw [← h.1, ← h.2]
        have := ih _ _ _ hrec
        simp only [List.cons_append, List.append_assoc, this]
        rw [span_eq_self]
    · simp only [Prod.mk.injEq] at h
      rw [← h.1, ← h.2]
      rfl

theorem relTail_append (s m r : Name) (h : relTail s = (m, r)) : m ++ r = s :=
  relTailF_append s.length s m r h

theorem matchRelease_append (s m r : Name) (h : matchRelease s = some (m, r)) :
    m ++ r = s := by
  simp only [matchRelease] at h
  split at h
  · exact absurd h (by simp)
  · obtain ⟨m2, r2, hrec⟩ : ∃ m2 r2, relTail (s.dropWhile Char.isDigit) = (m2, r2) :=
      ⟨_, _, rfl⟩
    rw [hrec] at h
    simp only [Option.some_inj, Prod.mk.injEq] at h
    rw [← h.1, ← h.2, List.append_assoc, relTail_append _ _ _ hrec]
    exact span_eq_self _ s

theorem matchCoreTail_append (s m r : Name) (h : matchCoreTail s = (m, r)) :
    m ++ r = s := by
  simp only [matchCoreTail] at h
  obtain ⟨p1, r1, h1⟩ : ∃ p1 r1, labelledGroup preAlts s = (p1, r1) := ⟨_, _, rfl⟩
  obtain ⟨p2, r2, h2⟩ : ∃ p2 r2, matchPost r1 = (p2, r2) := ⟨_, _, rfl⟩
  obtain ⟨p3, r3, h3⟩ : ∃ p3 r3, labelledGroup ["dev".data] r2 = (p3, r3) := ⟨_, _, rfl⟩
  rw [h1, h2, h3] at h
  simp only [Prod.mk.injEq] at h
  rw [← h.1, ← h.2]
  simp only [List.append_assoc]
  rw [labelledGroup_append _ _ _ _ h3, matchPost_append _ _ _ h2]
  exact labelledGroup_append _ _ _ _ h1

theorem matchEpoch_append (s m r : Name) (h : matchEpoch s = some (m, r)) :
    m ++ r = s := by
  simp only [matchEpoch] at h
  split at h
  · exact absurd h (by simp)
  · split at h
    · next r0 heq =>
      simp only [Option.some_inj, Prod.mk.injEq] at h
      rw [← h.1, ← h.2, List.append_assoc]
      have := span_eq_self Char.isDigit s
      rw [heq] at this
      simpa using this
    · exact absurd h (by simp)

theorem matchCoreNoEpoch_append (s m r : Name) (h : matchCoreNoEpoch s = some (m, r)) :
    m ++ r = s := by
  simp only [matchCoreNoEpoch] at h
  split at h
  · next m0 r0 hrel =>
    obtain ⟨t, r2, ht⟩ : ∃ t r2, matchCoreTail r0 = (t, r2) := ⟨_, _, rfl⟩
    rw [ht] at h
    simp only [Option.some_inj, Prod.mk.injEq] at h
    rw [← h.1, ← h.2, List.append_assoc, matchCoreTail_append _ _ _ ht]
    exact matchRelease_append _ _ _ hrel
  · exact absurd h (by simp)

theorem matchCore_append (s m r : Name) (h : matchCore s = some (m, r)) :
    m ++ r = s := by
  simp only [matchCore] at h
  split at h
  · next e r0 hep =>
    split at h
    · next m0 r1 hrel =>
      obtain ⟨t, r2, ht⟩ : ∃ t r2, matchCoreTail r1 = (t, r2) := ⟨_, _, rfl⟩
      rw [ht] at h
      simp only [Option.some_inj, Prod.mk.injEq] at h
      rw [← h.1, ← h.2, List.append_assoc, List.append_assoc,
        matchCoreTail_append _ _ _ ht, matchRelease_append _ _ _ hrel]
      exact matchEpoch_append _ _ _ hep
    · exact matchCoreNoEpoch_append s m r h
  · exact matchCoreNoEpoch_append s m r h

theorem localTailF_append : ∀ fuel s m r, localTailF fuel s = (m, r) → m ++ r = s := by
  intro fuel
  induction fuel with
  | zero =>
    intro s m r h
    simp only [localTailF, Prod.mk.injEq] at h
    rw [← h.1, ← h.2]
    rfl
  | succ n ih =>
    intro s m r h
    simp only [localTailF] at h
    split at h
    · next c rest =>
      split at h
      · split at h
        · simp only [Prod.mk.injEq] at h
          rw [← h.1, ← h.2]
          rfl
        · obtain ⟨m2, r2, hrec⟩ : ∃ m2 r2, localTailF n (rest.dropWhile isLocalAlnum) = (m2, r2) :=
            ⟨_, _, rfl⟩
          rw [hrec] at h
          simp only [Prod.mk.injEq] at h
          rw [← h.1, ← h.2]
          have := ih _ _ _ hrec
          simp only [List.cons_append, List.append_assoc, this]
          rw [span_eq_self]
      · simp only [Prod.mk.injEq] at h
        rw [← h.1, ← h.2]
        rfl
    · simp only [Prod.mk.injEq] at h
      rw [← h.1, ← h.2]
      rfl

theorem localTail_append (s m r : Name) (h : localTail s = (m, r)) : m ++ r = s :=
  localTailF_append s.length s m r h

theorem matchLocal_append (s m r : Name) (h : matchLocal s = (m, r)) : m ++ r = s := by
  unfold matchLocal at h
  split at h
  · next rest =>
    obtain ⟨m2, r2, hrec⟩ : ∃ m2 r2, localTail (rest.dropWhile isLocalAlnum) = (m2, r2) :=
      ⟨_, _, rfl⟩
    rw [hrec] at h
    simp only [] at h
    split at h
    · simp only [Prod.mk.injEq] at h
      rw [← h.1, ← h.2]
      rfl
    · simp only [Prod.mk.injEq] at h
      rw [← h.1, ← h.2]
      have := localTail_append _ _ _ hrec
      simp only [List.cons_append, List.append_assoc, this]
      rw [span_eq_self]
  · simp only [Prod.mk.injEq] at h
    rw [← h.1, ← h.2]
    rfl

theorem matchVersion_append (s m r : Name) (h : matchVersion s = some (m, r)) :
    m ++ r = s := by
  simp only [matchVersion] at h
  split at h
  · next m0 r0 hcore =>
    obtain ⟨l, r2, hl⟩ : ∃ l r2, matchLocal r0 = (l, r2) := ⟨_, _, rfl⟩
    rw [hl] at h
    simp only [Option.some_inj, Prod.mk.injEq] at h
    have hm0 : m0 ++ r0 = s := by
      split at hcore
      · next c rest =>
        split at hcore
        · cases hmc : matchCore rest with
          | none =>
            rw [hmc] at hcore
            exact matchCore_append _ _ _ hcore
          | some pr =>
            obtain ⟨m1, r1⟩ := pr
            rw [hmc] at hcore
            simp only [Option.some_inj, Prod.mk.injEq] at hcore
            rw [← hcore.1, ← hcore.2]
            simpa using matchCore_append _ _ _ hmc
        · exact matchCore_append _ _ _ hcore
      · exact absurd hcore (by simp)
    rw [← h.1, ← h.2, List.append_assoc, matchLocal_append _ _ _ hl]
    exact hm0
  · exact absurd h (by simp)

/-! ### Helper lemmas: lines mentioning `sixty` are untouched by the rewriter -/

theorem drop_import_sixty (ws s : Name) (hws : ws.all isPySpace = true) :
    (ws ++ "import sixty".data ++ s).dropWhile isPySpace = "import sixty".data ++ s := by
  have h : ("import sixty".data ++ s : Name) = 'i' :: ("mport sixty".data ++ s) := rfl
  rw [List.append_assoc, h]
  exact dropWhile_run _ _ _ _ hws (by decide)

theorem take_import_sixty (ws s : Name) (hws : ws.all isPySpace = true) :
    (ws ++ "import sixty".data ++ s).takeWhile isPySpace = ws := by
  have h : ("import sixty".data ++ s : Name) = 'i' :: ("mport sixty".data ++ s) := rfl
  rw [List.append_assoc, h]
  exact takeWhile_run _ _ _ _ hws (by decide)

theorem drop_from_sixty (ws s : Name) (hws : ws.all isPySpace = true) :
    (ws ++ "from sixty".data ++ s).dropWhile isPySpace = "from sixty".data ++ s := by
  have h : ("from sixty".data ++ s : Name) = 'f' :: ("rom sixty".data ++ s) := rfl
  rw [List.append_assoc, h]
  exact dropWhile_run _ _ _ _ hws (by decide)

theorem plain_skips_import_sixty (ns ws s : Name) (hws : ws.all isPySpace = true) :
    rewritePlainImport ns "six".data (ws ++ "import sixty".data ++ s)
      = ws ++ "import sixty".data ++ s := by
  unfold rewritePlainImport
  rw [drop_import_sixty ws s hws]
  simp [stripLit, isPySpace]

theorem aliased_skips_import_sixty (ns ws s : Name) (hws : ws.all isPySpace = true) :
    rewriteAliasedImport ns "six".data (ws ++ "import sixty".data ++ s)
      = ws ++ "import sixty".data ++ s := by
  unfold rewriteAliasedImport
  rw [drop_import_sixty ws s hws]
  simp [stripLit]

theorem dotted_skips_import_sixty (ws s : Name) (hws : ws.all isPySpace = true) :
    isDottedImportLine "six".data (ws ++ "import sixty".data ++ s) = false := by
  unfold isDottedImportLine
  rw [drop_import_sixty ws s hws]
  simp [stripLit]

theorem from_skips_import_sixty (ns ws s : Name) (hws : ws.all isPySpace = true) :
    rewriteFromImport ns "six".data (ws ++ "import sixty".data ++ s)
      = ws ++ "import sixty".data ++ s := by
  unfold rewriteFromImport
  rw [drop_import_sixty ws s hws]
  simp [stripLit]

theorem plain_skips_from_sixty (ns ws s : Name) (hws : ws.all isPySpace = true) :
    rewritePlainImport ns "six".data (ws ++ "from sixty".data ++ s)
      = ws ++ "from sixty".data ++ s := by
  unfold rewritePlainImport
  rw [drop_from_sixty ws s hws]
  simp [stripLit]

theorem aliased_skips_from_sixty (ns ws s : Name) (hws : ws.all isPySpace = true) :
    rewriteAliasedImport ns "six".data (ws ++ "from sixty".data ++ s)
      = ws ++ "from sixty".data ++ s := by
  unfold rewriteAliasedImport
  rw [drop_from_sixty ws s hws]
  simp [stripLit]

theorem dotted_skips_from_sixty (ws s : Name) (hws : ws.all isPySpace = true) :
    isDottedImportLine "six".data (ws ++ "from sixty".data ++ s) = false := by
  unfold isDottedImportLine
  rw [drop_from_sixty ws s hws]
  simp [stripLit]

theorem from_skips_from_sixty (ns ws s : Name) (hws : ws.all isPySpace = true) :
    rewriteFromImport ns "six".data (ws ++ "from sixty".data ++ s)
      = ws ++ "from sixty".data ++ s := by
  unfold rewriteFromImport
  rw [drop_from_sixty ws s hws]
  simp [stripLit, isPySpace]

theorem isEmpty_false_of_ne_nil {α : Type} (l : List α) (h : l ≠ []) :
    l.isEmpty = false := by
  cases l with
  | nil => exact absurd rfl h
  | cons a t => rfl

/-! ### Lemmas about the interactive flow -/

theorem runLoop_trace_mono (latest : Name → Option Name) (vle : Name → Name → Bool)
    (vendorOk : Name → Bool) :
    ∀ (names : List Name) (st : IState) (tr : List Effect),
      ∃ s, (runLoop latest vle vendorOk names st tr).trace = tr ++ s := by
  intro names
  induction names with
  | nil =>
    intro st tr
    cases hm : st.marker with
    | some p => exact ⟨[.deleteMarker], by simp [runLoop, hm]⟩
    | none => exact ⟨[], by simp [runLoop, hm]⟩
  | cons n rest ih =>
    intro st tr
    cases hl : latest n with
    | none => exact ⟨[.network n], by simp [runLoop, hl]⟩
    | some l =>
      by_cases hv : vle l ((lookupA st.packages n).getD []) = true
      · obtain ⟨s, hs⟩ := ih st (tr ++ [.network n])
        exact ⟨[.network n] ++ s, by simp [runLoop, hl, hv, hs]⟩
      · by_cases hok : vendorOk n = true
        · obtain ⟨s, hs⟩ := ih ⟨setVersion n l st.packages, some n⟩
            (tr ++ [.network n, .writeRequirements (setVersion n l st.packages),
              .writeMarker n, .vendorRun n, .commit n])
          refine ⟨[.network n, .writeRequirements (setVersion n l st.packages),
            .writeMarker n, .vendorRun n, .commit n] ++ s, ?_⟩
          simp [runLoop, hl, hv, hok, hs]
        · refine ⟨[.network n, .writeRequirements (setVersion n l st.packages),
            .writeMarker n, .vendorRun n], ?_⟩
          simp [runLoop, hl, hv, hok]

theorem runLoop_vendorFailure_marker (latest : Name → Option Name)
    (vle : Name → Name → Bool) (vendorOk : Name → Bool) :
    ∀ (names : List Name) (st : IState) (tr : List Effect) (n : Name),
      (runLoop latest vle vendorOk names st tr).error = some (.vendorFailure n) →
      (runLoop latest vle vendorOk names st tr).persisted.marker = some n := by
  intro names
  induction names with
  | nil =>
    intro st tr n h
    cases hm : st.marker <;> simp [runLoop, hm] at h
  | cons m rest ih =>
    intro st tr n h
    cases hl : latest m with
    | none => simp [runLoop, hl] at h
    | some l =>
      by_cases hv : vle l ((lookupA st.packages m).getD []) = true
      · simp only [runLoop, hl, hv, if_true] at h ⊢
        exact ih _ _ _ h
      · by_cases hok : vendorOk m = true
        · simp only [runLoop, hl, hv, hok, if_true, Bool.false_eq_true, if_false] at h ⊢
          exact ih _ _ _ h
        · simp only [runLoop, hl, hv, hok, Bool.false_eq_true, if_false] at h ⊢
          simp at h
          simp [h]

theorem resuming_from_ok_some (st : IState) (p v : Name)
    (h : resuming_from st = .ok (some (p, v))) :
    st.marker = some p ∧ lookupA st.packages p = some v := by
  unfold resuming_from at h
  split at h
  · simp at h
  next q hm =>
    split at h
    · simp at h
    next v2 hq =>
      simp only [Except.ok.injEq, Option.some_inj, Prod.mk.injEq] at h
      obtain ⟨h1, h2⟩ := h
      subst h1
      subst h2
      exact ⟨hm, hq⟩

theorem resuming_from_error_inv (st : IState) (e : VendErr)
    (h : resuming_from st = .error e) : ∃ p, e = .resumeMissing p := by
  unfold resuming_from at h
  split at h
  · simp at h
  next q hm =>
    split at h
    · simp only [Except.error.injEq] at h
      exact ⟨q, h.symm⟩
    · simp at h

theorem determinePackagesRest_error_inv (packages : List (Name × Name))
    (skip only : List Name) (e : VendErr)
    (h : determinePackagesRest packages skip only = .error e) :
    ∃ p, e = .onlyUnknown p := by
  unfold determinePackagesRest at h
  split at h
  · split at h
    · next q hq =>
      simp only [Except.error.injEq] at h
      exact ⟨q, h.symm⟩
    · simp at h
  · split at h <;> simp at h

theorem determine_packages_error_inv (packages : List (Name × Name))
    (res : Option (Name × Name)) (skip only : List Name) (e : VendErr)
    (h : determine_packages packages res skip only = .error e) :
    (∃ p, e = .resumeSkipped p) ∨ (∃ p, e = .resumeNotInOnly p)
      ∨ (∃ p, e = .onlyUnknown p) := by
  unfold determine_packages at h
  split at h
  · next p v =>
    split at h
    · simp only [Except.error.injEq] at h
      exact Or.inl ⟨p, h.symm⟩
    · split at h
      · simp only [Except.error.injEq] at h
        exact Or.inr (Or.inl ⟨p, h.symm⟩)
      · exact Or.inr (Or.inr (determinePackagesRest_error_inv _ _ _ _ h))
  · exact Or.inr (Or.inr (determinePackagesRest_error_inv _ _ _ _ h))

theorem resume_starts_with_vendor (latest2 : Name → Option Name)
    (vle2 : Name → Name → Bool) (vendorOk2 : Name → Bool) (st : IState) (n v : Name)
    (hm : st.marker = some n) (hv : lookupA st.packages n = some v) :
    (interactive_updates latest2 vle2 vendorOk2 [] [] false st).trace.take 1
      = [.vendorRun n] := by
  unfold interactive_updates
  simp only [Bool.false_and, if_neg, ite_false, Bool.false_eq_true]
  rw [show resuming_from st = .ok (some (n, v)) by simp [resuming_from, hm, hv]]
  simp only [determine_packages, determinePackagesRest]
  simp only [List.not_mem_nil, if_false, ne_eq, not_true_eq_false, false_and,
    not_false_eq_true, if_neg, List.filter_nil]
  by_cases hok : vendorOk2 n = true
  · obtain ⟨s, hs⟩ := runLoop_trace_mono latest2 vle2 vendorOk2
      (st.packages.map Prod.fst) st ([] ++ [.vendorRun n, .commit n])
    simp only [List.nil_append] at hs
    simp [hok, hs]
  · simp [hok]

/-- C8: with a marker naming a package absent from the requirements and no
forced restart, the interactive flow fails with the named resume error
before anything else: the result is exactly an empty effect trace (no
package-index query, no requirements write, no marker write or delete) and
the persisted state is the initial one, untouched. -/
theorem c8_stale_marker_fails_before_any_effect (latest : Name → Option Name)
    (vle : Name → Name → Bool) (vendorOk : Name → Bool) (skip only : List Name)
    (init : IState) (p : Name)
    (hm : init.marker = some p) (habs : lookupA init.packages p = none) :
    interactive_updates latest vle vendorOk skip only false init
      = ⟨[], init, some (.resumeMissing p)⟩ := by
  unfold interactive_updates
  simp only [Bool.false_and, Bool.false_eq_true, if_false]
  rw [show resuming_from init = .error (.resumeMissing p) from by
    simp [resuming_from, hm, habs]]

/-- Witness for C8 at a concrete state: the marker names `gone`, which is
not among the pinned packages. -/
theorem c8_witness :
    interactive_updates (fun _ => none) (fun _ _ => false) (fun _ => false) [] [] false
        ⟨[("six".data, "1".data)], some "gone".data⟩
      = ⟨[], ⟨[("six".data, "1".data)], some "gone".data⟩,
          some (.resumeMissing "gone".data)⟩ :=
  c8_stale_marker_fails_before_any_effect (fun _ => none) (fun _ _ => false)
    (fun _ => false) [] [] ⟨[("six".data, "1".data)], some "gone".data⟩ "gone".data
    rfl rfl

/-- C3 counterexample to the claim as stated: a fresh run over the single
package `six` whose vendor pass fails aborts with the marker naming `six`,
although no commit for `six` (or any package) is in the trace — the marker
names the package whose update was in progress, not the last fully committed
one.  The final conjunct refutes the claim's invariant, that an aborted
run's marker names a committed package, at this input. -/
theorem c3_marker_counterexample :
    ((interactive_updates (fun _ => some "2".data) (fun _ _ => false) (fun _ => false)
        [] [] false ⟨[("six".data, "1".data)], none⟩).error).isSome = true
    ∧ (interactive_updates (fun _ => some "2".data) (fun _ _ => false) (fun _ => false)
        [] [] false ⟨[("six".data, "1".data)], none⟩).persisted.marker = some "six".data
    ∧ ¬ (∀ q, (interactive_updates (fun _ => some "2".data) (fun _ _ => false)
          (fun _ => false) [] [] false
          ⟨[("six".data, "1".data)], none⟩).persisted.marker = some q →
        Effect.commit q ∈ (interactive_updates (fun _ => some "2".data)
          (fun _ _ => false) (fun _ => false) [] [] false
          ⟨[("six".data, "1".data)], none⟩).trace) := by
  refine ⟨rfl, rfl, fun hall => ?_⟩
  have := hall "six".data rfl
  revert this
  decide

/-- C3 (amended): when the run aborts because a package's vendor pass (or
commit) failed, the persisted marker names that very package — whose
requirements bump was already persisted but whose commit may be missing —
and the next invocation (no forced restart, no skip or only lists) resumes
exactly at that package, re-running its `do_one_update` first. -/
theorem c3_failed_vendor_marker_amended (latest : Name → Option Name)
    (vle : Name → Name → Bool) (vendorOk : Name → Bool) (skip only : List Name)
    (fromStart : Bool) (init : IState) (n : Name)
    (h : (interactive_updates latest vle vendorOk skip only fromStart init).error
        = some (.vendorFailure n)) :
    (interactive_updates latest vle vendorOk skip only fromStart init).persisted.marker
        = some n
    ∧ ∀ (latest2 : Name → Option Name) (vle2 : Name → Name → Bool)
        (vendorOk2 : Name → Bool) (v : Name),
        lookupA (interactive_updates latest vle vendorOk
            skip only fromStart init).persisted.packages n = some v →
        (interactive_updates latest2 vle2 vendorOk2 [] [] false
            (interactive_updates latest vle vendorOk
              skip only fromStart init).persisted).trace.take 1
          = [.vendorRun n] := by
  have hmark : (interactive_updates latest vle vendorOk
      skip only fromStart init).persisted.marker = some n := by
    unfold interactive_updates at h ⊢
    simp only [] at h ⊢
    cases hr : resuming_from (if fromStart then ⟨init.packages, none⟩ else init) with
    | error e =>
      try rw [hr] at h
      simp only [] at h
      obtain ⟨p, rfl⟩ := resuming_from_error_inv _ _ hr
      simp at h
    | ok res =>
      try rw [hr] at h
      try rw [hr]
      simp only [] at h ⊢
      cases hd : determine_packages
          (if fromStart then (⟨init.packages, none⟩ : IState) else init).packages
          res skip only with
      | error e =>
        try rw [hd] at h
        simp only [] at h
        rcases determine_packages_error_inv _ _ _ _ _ hd with ⟨p, rfl⟩ | ⟨p, rfl⟩ | ⟨p, rfl⟩ <;>
          simp at h
      | ok names =>
        try rw [hd] at h
        try rw [hd]
        simp only [] at h ⊢
        cases res with
        | none =>
          simp only [] at h ⊢
          exact runLoop_vendorFailure_marker _ _ _ _ _ _ _ h
        | some pv =>
          obtain ⟨p, v⟩ := pv
          simp only [] at h ⊢
          by_cases hok : vendorOk p = true
          · simp only [hok, if_true] at h ⊢
            exact runLoop_vendorFailure_marker _ _ _ _ _ _ _ h
          · simp only [hok, Bool.false_eq_true, if_false] at h ⊢
            simp only [Option.some_inj, VendErr.vendorFailure.injEq] at h
            subst h
            exact (resuming_from_ok_some _ p v hr).1
  exact ⟨hmark, fun latest2 vle2 vendorOk2 v hv =>
    resume_starts_with_vendor latest2 vle2 vendorOk2 _ n v hmark hv⟩

/-- Witness for C3 at the concrete aborted run of the counterexample: the
marker names `six`, and a following invocation with a working vendor pass
starts by re-running `do_one_update` for `six`. -/
theorem c3_amended_witness :
    (interactive_updates (fun _ => some "2".data) (fun _ _ => false) (fun _ => false)
        [] [] false ⟨[("six".data, "1".data)], none⟩).persisted.marker = some "six".data
    ∧ (interactive_updates (fun _ => some "3".data) (fun _ _ => false) (fun _ => true)
        [] [] false
        (interactive_updates (fun _ => some "2".data) (fun _ _ => false) (fun _ => false)
          [] [] false ⟨[("six".data, "1".data)], none⟩).persisted).trace.take 1
      = [.vendorRun "six".data] := by
  have h := c3_failed_vendor_marker_amended (fun _ => some "2".data) (fun _ _ => false)
    (fun _ => false) [] [] false ⟨[("six".data, "1".data)], none⟩ "six".data rfl
  exact ⟨h.1, h.2 (fun _ => some "3".data) (fun _ _ => false) (fun _ => true) "2".data rfl⟩

/-- C5: the license destination is resolved in the source's exact priority
order, which coincides with the spec's (a) exactly-named directory,
(b) lowercased directory, (c) override map entry, (d) flat
`<destination>/<library>.<filename>`; in particular an existing
exactly-named directory wins over a configured override (stated generally in
the second conjunct and evaluated concretely in the third, where `dst/foo`
exists as a directory and an override maps `foo` to `foo-licenses`; the
fourth conjunct shows the override applying once no directory exists). -/
theorem c5_license_destination_priority (isDir : FsPath → Bool) (le : LicenseExtractor)
    (library filename : Name) :
    get_license_destination isDir le library filename
        = specLicenseDestination isDir le library filename
    ∧ (isDir (le.destination ++ [library]) = true →
        get_license_destination isDir le library filename
          = le.destination ++ [library, filename])
    ∧ get_license_destination (fun q => q == ["dst".data, "foo".data])
        ⟨["dst".data], [("foo".data, "foo-licenses".data)], []⟩ "foo".data "LICENSE".data
        = ["dst".data, "foo".data, "LICENSE".data]
    ∧ get_license_destination (fun _ => false)
        ⟨["dst".data], [("foo".data, "foo-licenses".data)], []⟩ "foo".data "LICENSE".data
        = ["dst".data, "foo-licenses".data, "LICENSE".data] := by
  refine ⟨rfl, ?_, ?_, ?_⟩
  · intro h
    unfold get_license_destination
    rw [if_pos h]
  · rfl
  · rfl

/-- C6: when an artifact's archive holds no license candidate, the extractor
falls back to the configured URL for the library name derived from the
artifact filename; without such a URL it fails with the named error rather
than skipping; and when candidates exist, all of them are extracted and no
fallback is attempted.  The final conjuncts evaluate each branch at concrete
inputs (a dual-licensed archive with two candidates, an archive with none
and no URL, and one with none but a configured URL). -/
theorem c6_license_fallback_behaviour (isDir : FsPath → Bool) (le : LicenseExtractor)
    (artifactName : Name) (members : List Name) :
    (find_licenses members = [] →
      (lookupA le.license_fallback_urls (get_library_name_from_artifact_name artifactName)
          = none →
        extract_license_from_artifact isDir le artifactName members
          = .error (.noFallbackUrl (get_library_name_from_artifact_name artifactName)))
      ∧ ∀ url,
          lookupA le.license_fallback_urls (get_library_name_from_artifact_name artifactName)
            = some url →
          extract_license_from_artifact isDir le artifactName members
            = .ok ([], some (url, get_license_destination isDir le
                (get_library_name_from_artifact_name artifactName) (basename url))))
    ∧ (find_licenses members ≠ [] →
        extract_license_from_artifact isDir le artifactName members
          = .ok ((find_licenses members).map (fun m =>
              get_license_destination isDir le
                (get_library_name_from_artifact_name artifactName) (basename m)), none))
    ∧ extract_license_from_artifact (fun _ => false) ⟨["dst".data], [], []⟩
        "pkg-1.0.tar.gz".data ["pkg/LICENSE".data, "pkg/LICENSE.APACHE".data]
        = .ok ([["dst".data, "pkg.LICENSE".data], ["dst".data, "pkg.LICENSE.APACHE".data]], none)
    ∧ extract_license_from_artifact (fun _ => false) ⟨["dst".data], [], []⟩
        "pkg-1.0.tar.gz".data ["readme.txt".data]
        = .error (.noFallbackUrl "pkg".data)
    ∧ extract_license_from_artifact (fun _ => false)
        ⟨["dst".data], [], [("pkg".data, "https://x.example/LIC".data)]⟩
        "pkg-1.0.tar.gz".data ["readme.txt".data]
        = .ok ([], some ("https://x.example/LIC".data, ["dst".data, "pkg.LIC".data])) := by
  refine ⟨fun hempty => ⟨fun hnone => ?_, fun url hsome => ?_⟩, fun hne => ?_, rfl, rfl, rfl⟩
  · simp [extract_license_from_artifact, use_license_fallback, hempty, hnone]
  · simp [extract_license_from_artifact, use_license_fallback, hempty, hsome]
  · simp [extract_license_from_artifact, isEmpty_false_of_ne_nil _ hne]

/-- C9: an archive member is selected as a license candidate exactly when
its name contains `LICENSE` or `COPYING` (case-sensitively) and does not
contain the substring `/test`; lowercase `license.txt` is never a candidate;
a `/test` path is filtered silently (the function is total, no error); and
multiple candidates are all kept in order. -/
theorem c9_license_candidate_selection :
    (∀ (members : List Name) (m : Name), m ∈ find_licenses members ↔
      m ∈ members
        ∧ (containsSub m "LICENSE".data = true ∨ containsSub m "COPYING".data = true)
        ∧ containsSub m "/test".data = false)
    ∧ find_licenses ["license.txt".data] = []
    ∧ find_licenses ["html5lib/tests/LICENSE".data] = []
    ∧ find_licenses ["a/LICENSE".data, "c/notes.txt".data, "b/COPYING.BSD".data]
        = ["a/LICENSE".data, "b/COPYING.BSD".data] := by
  refine ⟨?_, rfl, rfl, rfl⟩
  intro members m
  simp [find_licenses, List.mem_filter, Bool.and_eq_true, Bool.or_eq_true,
    Bool.not_eq_true', and_assoc]

/-- C7: pattern classification works exactly as claimed (first three
conjuncts: the spec's regex, glob and literal examples), and a regex-matched
directory is pruned without descending (fifth conjunct) while matched files
and nothing else are removed (sixth conjunct) — but the removal loop mutates
`dirnames` while iterating over it, so of two adjacent matching sibling
directories only the first is removed: in the fourth conjunct the predicate
(the behaviour of the regex `^[ab]$` on relative paths) matches both `a` and
`b`, yet `b` survives untouched, contradicting the claim that each
application removes exactly the matching entries. -/
theorem c7_sibling_directory_removal_bug :
    classifyDropPattern "^vendor/.*\\.dist-info$".data
        = .regex "^vendor/.*\\.dist-info$".data
    ∧ classifyDropPattern "*.egg-info".data = .globPat "*.egg-info".data
    ∧ classifyDropPattern "docs/readme.md".data = .literal "docs/readme.md".data
    ∧ remove_matching_regex (fun n => n == "a".data || n == "b".data)
        (.cons (.dir "a".data .nil) (.cons (.dir "b".data .nil)
          (.cons (.file "keep.py".data) .nil)))
        = .cons (.dir "b".data .nil) (.cons (.file "keep.py".data) .nil)
    ∧ remove_matching_regex (fun n => n == "a".data)
        (.cons (.dir "a".data (.cons (.file "x".data) .nil)) (.cons (.file "y".data) .nil))
        = .cons (.file "y".data) .nil
    ∧ remove_matching_regex (fun n => n == "a/x".data)
        (.cons (.dir "a".data (.cons (.file "x".data) (.cons (.file "z".data) .nil))) .nil)
        = .cons (.dir "a".data (.cons (.file "z".data) .nil)) .nil
    ∧ ((fun (n : Name) => n == "a".data || n == "b".data) "b".data) = true :=
  ⟨rfl, rfl, rfl, rfl, rfl, rfl, rfl⟩

/-- C2 (amended): parsing an accepted requirements line decomposes it as
prefix, name, optional whitespace, the literal `==`, optional whitespace,
version and suffix, where the whitespace around `==` is captured by no
group; serialization rebuilds the line with a bare `==`, so it reproduces
the original byte-for-byte exactly when that whitespace is empty (and in
general returns the original with the whitespace around `==` dropped). -/
theorem c2_parse_serialize_roundtrip (l : Name) (p : PinnedPackageInfo)
    (h : parseLine l = some p) :
    ∃ w1 w2 : Name, w1.all isPySpace = true ∧ w2.all isPySpace = true ∧
      l = p.pfx ++ p.name ++ w1 ++ "==".data ++ w2 ++ p.version ++ p.suffix ∧
      pinnedStr p = p.pfx ++ p.name ++ "==".data ++ p.version ++ p.suffix ∧
      (w1 = [] → w2 = [] → pinnedStr p = l) := by
  unfold parseLine at h
  simp only [] at h
  split at h
  · exact absurd h (by simp)
  next c r2 hdrop =>
    split at h
    case isFalse => exact absurd h (by simp)
    case isTrue hAlpha =>
      split at h
      next r5 heq2 =>
        split at h
        next v suf hv =>
          simp only [Option.some_inj] at h
          subst h
          refine ⟨(r2.dropWhile isNameChar).takeWhile isPySpace, r5.takeWhile isPySpace,
            all_takeWhile _ _, all_takeWhile _ _, ?_, rfl, ?_⟩
          · have e1 : l.takeWhile isPySpace ++ (c :: r2) = l := by
              rw [← hdrop]
              exact span_eq_self _ _
            have e2 : r2.takeWhile isNameChar ++ r2.dropWhile isNameChar = r2 :=
              span_eq_self _ _
            have e3 : (r2.dropWhile isNameChar).takeWhile isPySpace ++ ('=' :: '=' :: r5)
                = r2.dropWhile isNameChar := by
              rw [← heq2]
              exact span_eq_self _ _
            have e4 : r5.takeWhile isPySpace ++ r5.dropWhile isPySpace = r5 :=
              span_eq_self _ _
            have e5 : v ++ suf = r5.dropWhile isPySpace := matchVersion_append _ _ _ hv
            have hdd : ("==".data : Name) = '=' :: '=' :: [] := rfl
            simp only [hdd, List.append_assoc, List.cons_append, List.nil_append]
            rw [e5, e4, e3, e2]
            exact e1.symm
          · intro h1 h2
            have e1 : l.takeWhile isPySpace ++ (c :: r2) = l := by
              rw [← hdrop]
              exact span_eq_self _ _
            have e2 : r2.takeWhile isNameChar ++ r2.dropWhile isNameChar = r2 :=
              span_eq_self _ _
            have e3 : (r2.dropWhile isNameChar).takeWhile isPySpace ++ ('=' :: '=' :: r5)
                = r2.dropWhile isNameChar := by
              rw [← heq2]
              exact span_eq_self _ _
            have e4 : r5.takeWhile isPySpace ++ r5.dropWhile isPySpace = r5 :=
              span_eq_self _ _
            have e5 : v ++ suf = r5.dropWhile isPySpace := matchVersion_append _ _ _ hv
            have hdd : ("==".data : Name) = '=' :: '=' :: [] := rfl
            rw [h1] at e3
            rw [h2] at e4
            simp only [List.nil_append] at e3 e4
            simp only [pinnedStr, hdd, List.append_assoc, List.cons_append, List.nil_append]
            rw [e5, e4, e3, e2]
            exact e1
        next => exact absurd h (by simp)
      all_goals exact absurd h (by simp)

/-- C2 counterexample to the claim as stated: the line `six == 1.16.0` is
accepted by the parser, but serializing the parsed record yields
`six==1.16.0`, not the original line: the whitespace around `==` is lost. -/
theorem c2_whitespace_counterexample :
    (parseLine "six == 1.16.0".data).map pinnedStr = some "six==1.16.0".data
    ∧ "six==1.16.0".data ≠ "six == 1.16.0".data := by
  constructor
  · rfl
  · decide

/-- Witness for C2 at the concrete line `six==1.16.0`, which has no
whitespace around `==` and hence round-trips exactly. -/
theorem c2_roundtrip_witness :
    ∃ w1 w2 : Name, w1.all isPySpace = true ∧ w2.all isPySpace = true ∧
      "six==1.16.0".data
        = (PinnedPackageInfo.mk "six".data "1.16.0".data [] []).pfx
          ++ (PinnedPackageInfo.mk "six".data "1.16.0".data [] []).name
          ++ w1 ++ "==".data ++ w2
          ++ (PinnedPackageInfo.mk "six".data "1.16.0".data [] []).version
          ++ (PinnedPackageInfo.mk "six".data "1.16.0".data [] []).suffix ∧
      pinnedStr (PinnedPackageInfo.mk "six".data "1.16.0".data [] [])
        = (PinnedPackageInfo.mk "six".data "1.16.0".data [] []).pfx
          ++ (PinnedPackageInfo.mk "six".data "1.16.0".data [] []).name
          ++ "==".data
          ++ (PinnedPackageInfo.mk "six".data "1.16.0".data [] []).version
          ++ (PinnedPackageInfo.mk "six".data "1.16.0".data [] []).suffix ∧
      (w1 = [] → w2 = [] →
        pinnedStr (PinnedPackageInfo.mk "six".data "1.16.0".data [] []) = "six==1.16.0".data) :=
  c2_parse_serialize_roundtrip "six==1.16.0".data
    (PinnedPackageInfo.mk "six".data "1.16.0".data [] []) rfl

/-- C1: the import rewriter does raise a fatal error naming the offending
file for an aliasless dotted import under a non-empty namespace, and an
empty namespace passes the identical file through with no import rewriting,
but the reported line number is wrong when whitespace-only lines immediately
precede the import: the search pattern `^\s*(import {lib}\.\S+)` lets `\s*`
cross newlines, so for a file whose first line is blank and whose second
line is `import six.moves` the error reports line 1, not line 2.  The
conjuncts below evaluate the embedding at that failing input: the error
carries line number 1 although line 1 is whitespace-only and the
dotted import sits on line 2; the same file under the empty namespace passes
through unchanged. -/
theorem c1_dotted_import_line_number_bug :
    rewrite_file_imports "f.py".data "ns".data ["six".data] id
        [[], "import six.moves".data] = .error ⟨"f.py".data, 1⟩
    ∧ isDottedImportLine "six".data "import six.moves".data = true
    ∧ ([] : Name).all isPySpace = true
    ∧ rewrite_file_imports "f.py".data [] ["six".data] id
        [[], "import six.moves".data] = .ok [[], "import six.moves".data]
    ∧ rewrite_file_imports "f.py".data "ns".data ["six".data] id
        ["x = 1".data, "import six.moves".data] = .error ⟨"f.py".data, 2⟩ :=
  ⟨rfl, rfl, rfl, rfl, rfl⟩

/-- C4: a vendored library named `six` never causes a rewrite of a longer
identifier that merely starts with `six`: for every non-empty namespace, any
leading whitespace and any continuation, a line `import sixty...` (which
covers `import sixty_four ...` and `import sixty.moves as m`) and a line
`from sixty...` (which covers `from sixty_four import x`) pass through the
rewriter unchanged, and no unrewritable-dotted-import error is raised. -/
theorem c4_no_rewrite_on_name_with_six_as_proper_head (item ns ws s : Name)
    (hns : ns ≠ []) (hws : ws.all isPySpace = true) :
    rewrite_file_imports item ns ["six".data] id [ws ++ "import sixty".data ++ s]
        = .ok [ws ++ "import sixty".data ++ s]
    ∧ rewrite_file_imports item ns ["six".data] id [ws ++ "from sixty".data ++ s]
        = .ok [ws ++ "from sixty".data ++ s] := by
  have hne := isEmpty_false_of_ne_nil ns hns
  constructor
  · simp only [rewrite_file_imports, id, hne, Bool.false_eq_true, if_false, List.foldlM,
      processLib, List.map, plain_skips_import_sixty ns ws s hws,
      aliased_skips_import_sixty ns ws s hws, dottedErrorLine, dottedErrorGo,
      dotted_skips_import_sixty ws s hws, ite_self, from_skips_import_sixty ns ws s hws]
    rfl
  · simp only [rewrite_file_imports, id, hne, Bool.false_eq_true, if_false, List.foldlM,
      processLib, List.map, plain_skips_from_sixty ns ws s hws,
      aliased_skips_from_sixty ns ws s hws, dottedErrorLine, dottedErrorGo,
      dotted_skips_from_sixty ws s hws, ite_self, from_skips_from_sixty ns ws s hws]
    rfl

/-- Witness for C4 at a concrete input: namespace `ns`, no indentation,
continuation `_four`, giving the lines `import sixty_four` and
`from sixty_four`. -/
theorem c4_witness :
    rewrite_file_imports "f.py".data "ns".data ["six".data] id
        [[] ++ "import sixty".data ++ "_four".data]
        = .ok [[] ++ "import sixty".data ++ "_four".data]
    ∧ rewrite_file_imports "f.py".data "ns".data ["six".data] id
        [[] ++ "from sixty".data ++ "_four".data]
        = .ok [[] ++ "from sixty".data ++ "_four".data] :=
  c4_no_rewrite_on_name_with_six_as_proper_head "f.py".data "ns".data [] "_four".data
    (by decide) (by decide)

/-- C10: if the import rewriter fails with the unrewritable-dotted-import
error while processing a file, the file on disk keeps its original content
byte-for-byte: the source writes the transformed text back only after the
loop over every vendored library finished without raising. -/
theorem c10_error_leaves_file_unchanged (item ns : Name) (libs : List Name)
    (subst : List Name → List Name) (lines : List Name) (e : RewriteError)
    (h : rewrite_file_imports item ns libs subst lines = .error e) :
    diskAfterRewrite item ns libs subst lines = lines := by
  unfold diskAfterRewrite
  rw [h]

/-- Witness for C10 at a concrete input with two vendored libraries: the
first library's import was already rewritten in memory when the second
raises, and the disk content is still the original. -/
theorem c10_witness :
    diskAfterRewrite "f.py".data "ns".data ["other".data, "six".data] id
        ["import other".data, "import six.moves".data]
      = ["import other".data, "import six.moves".data] :=
  c10_error_leaves_file_unchanged "f.py".data "ns".data ["other".data, "six".data] id
    ["import other".data, "import six.moves".data] ⟨"f.py".data, 2⟩ rfl

end Vendoring
